import Mathlib

/-!
Verification of the streaming AI-provider module (`ai-streaming-module.js`).

This file gives a shallow embedding of the module's core:
* a JSON value type and an executable JSON parser standing for `JSON.parse`
  (success/failure and the parsed value; on failure the source code's
  `try { ... } catch { ... }` paths are modelled explicitly);
* the two per-provider stream-line parsers `_parseStreamLine`;
* the NDJSON stream reducer `_streamNDJSON`, modelled as a pure function
  from a list of byte chunks to the trace of callback invocations, with an
  incremental WHATWG-style UTF-8 decoder standing for `TextDecoder`;
* the self-hosted provider's message/image adapter `_processMessagesForOllama`;
* the bulk-response extraction of `generateResponse` for both providers and
  the self-hosted think-retry logic of `generateResponse`/`streamResponse`,
  with the HTTP transport abstracted as a function from the `think` flag to
  an `Except` result.

Theorems at the end settle the specification claims against these
definitions.
-/

set_option maxRecDepth 4096

namespace AIModule

/-! ## Generic character-list utilities -/

/-- Check whether `cs` starts with `pat`.
Models JavaScript `String.prototype.startsWith`. -/
def isHeadOf : List Char → List Char → Bool
  | [], _ => true
  | _ :: _, [] => false
  | p :: ps, c :: cs => p = c && isHeadOf ps cs

/-- Substring containment, models `RegExp.prototype.test` for a regular
expression consisting only of literal characters. -/
def containsSub (pat : List Char) : List Char → Bool
  | [] => isHeadOf pat []
  | c :: rest => isHeadOf pat (c :: rest) || containsSub pat rest

/-- The whitespace class of JavaScript `String.prototype.trim` (restricted to
the code points that can actually occur in this module's data: ASCII
whitespace, NBSP and the BOM/ZWNBSP). -/
def isJsWsT (c : Char) : Bool :=
  c = ' ' || c = '\t' || c = '\n' || c = '\r' ||
  c = Char.ofNat 11 || c = Char.ofNat 12 || c = Char.ofNat 0xA0 ||
  c = Char.ofNat 0xFEFF

/-- JavaScript `String.prototype.trim` on a character list. -/
def jsTrim (cs : List Char) : List Char :=
  ((cs.dropWhile isJsWsT).reverse.dropWhile isJsWsT).reverse

/-! ## JSON values and `JSON.parse` -/

/-- JSON values as produced by `JSON.parse`.  Numbers are kept as a decimal
mantissa/exponent pair `m * 10^e`; object fields keep source order
(`JSON.parse` lets a later duplicate key overwrite an earlier one, which the
field lookup below reproduces). -/
inductive Json where
  | null
  | bool (b : Bool)
  | num (m : Int) (e : Int)
  | str (s : String)
  | arr (elems : List Json)
  | obj (fields : List (String × Json))

/-- JSON whitespace. -/
def isJsonWs (c : Char) : Bool := c = ' ' || c = '\t' || c = '\n' || c = '\r'

def skipWs (cs : List Char) : List Char := cs.dropWhile isJsonWs

def hexVal (c : Char) : Option Nat :=
  if '0' ≤ c ∧ c ≤ '9' then some (c.toNat - 48)
  else if 'a' ≤ c ∧ c ≤ 'f' then some (c.toNat - 87)
  else if 'A' ≤ c ∧ c ≤ 'F' then some (c.toNat - 55)
  else none

/-- Single-character JSON string escapes (everything except `\u`). -/
def escChar (e : Char) : Option Char :=
  if e = '"' then some '"'
  else if e = '\\' then some '\\'
  else if e = '/' then some '/'
  else if e = 'b' then some (Char.ofNat 8)
  else if e = 'f' then some (Char.ofNat 12)
  else if e = 'n' then some '\n'
  else if e = 'r' then some '\r'
  else if e = 't' then some '\t'
  else none

/-- Body of a JSON string after the opening quote; returns the decoded
characters and the rest of the input after the closing quote.  Unescaped
control characters are refused, as in `JSON.parse`.  (Lone-surrogate `\u`
escapes, which cannot inhabit `Char`, fall back to `Char.ofNat`'s default;
no claim depends on such inputs.) -/
def parseStrBody : List Char → Option (List Char × List Char)
  | [] => none
  | '"' :: rest => some ([], rest)
  | '\\' :: 'u' :: h1 :: h2 :: h3 :: h4 :: rest =>
    match hexVal h1, hexVal h2, hexVal h3, hexVal h4, parseStrBody rest with
    | some a, some b, some c, some d, some (s, r) =>
      some (Char.ofNat (a * 4096 + b * 256 + c * 16 + d) :: s, r)
    | _, _, _, _, _ => none
  | '\\' :: e :: rest =>
    match escChar e, parseStrBody rest with
    | some ch, some (s, r) => some (ch :: s, r)
    | _, _ => none
  | c :: rest =>
    if c.toNat < 32 then none
    else match parseStrBody rest with
      | some (s, r) => some (c :: s, r)
      | none => none

/-- Consume a run of decimal digits, returning value, count and rest. -/
def digitsAux : List Char → Nat → Nat → Nat × Nat × List Char
  | [], acc, n => (acc, n, [])
  | c :: rest, acc, n =>
    if '0' ≤ c ∧ c ≤ '9' then digitsAux rest (acc * 10 + (c.toNat - 48)) (n + 1)
    else (acc, n, c :: rest)

def parseDigits (cs : List Char) : Option (Nat × Nat × List Char) :=
  let r := digitsAux cs 0 0
  if r.2.1 = 0 then none else some r

/-- JSON number grammar `-?(0|[1-9][0-9]*)(.[0-9]+)?([eE][+-]?[0-9]+)?`,
yielding mantissa and decimal exponent. -/
def parseNum (cs : List Char) : Option (Int × Int × List Char) := do
  let (neg, cs) := match cs with
    | '-' :: rest => (true, rest)
    | _ => (false, cs)
  let (ip, cs) ← match cs with
    | '0' :: rest => some ((0 : Nat), rest)
    | _ => (parseDigits cs).map fun (v, _, r) => (v, r)
  let (m1, e1, cs) ← match cs with
    | '.' :: rest =>
      (parseDigits rest).map fun (fv, fn, r) =>
        (ip * 10 ^ fn + fv, -(fn : Int), r)
    | _ => some (ip, (0 : Int), cs)
  let (e2, cs) ← match cs with
    | 'e' :: rest | 'E' :: rest =>
      let (esign, rest) := match rest with
        | '+' :: r => ((1 : Int), r)
        | '-' :: r => ((-1 : Int), r)
        | _ => ((1 : Int), rest)
      (parseDigits rest).map fun (ev, _, r) => (esign * ev, r)
    | _ => some ((0 : Int), cs)
  some (if neg then -(m1 : Int) else (m1 : Int), e1 + e2, cs)

mutual

/-- Parse one JSON value (fuel-indexed). -/
def parseValue : Nat → List Char → Option (Json × List Char)
  | 0, _ => none
  | fuel + 1, cs =>
    match skipWs cs with
    | '{' :: rest => parseObjBody fuel rest
    | '[' :: rest => parseArrBody fuel rest
    | '"' :: rest => (parseStrBody rest).map fun (s, r) => (Json.str (String.mk s), r)
    | 'n' :: 'u' :: 'l' :: 'l' :: rest => some (.null, rest)
    | 't' :: 'r' :: 'u' :: 'e' :: rest => some (.bool true, rest)
    | 'f' :: 'a' :: 'l' :: 's' :: 'e' :: rest => some (.bool false, rest)
    | other => (parseNum other).map fun (m, e, r) => (Json.num m e, r)

/-- After `{`: either an empty object or a field list. -/
def parseObjBody : Nat → List Char → Option (Json × List Char)
  | 0, _ => none
  | fuel + 1, cs =>
    match skipWs cs with
    | '}' :: rest => some (.obj [], rest)
    | _ => parseFields fuel cs []

/-- Comma-separated `"key": value` fields up to `}`. -/
def parseFields : Nat → List Char → List (String × Json) → Option (Json × List Char)
  | 0, _, _ => none
  | fuel + 1, cs, acc =>
    match skipWs cs with
    | '"' :: rest =>
      match parseStrBody rest with
      | none => none
      | some (k, r1) =>
        match skipWs r1 with
        | ':' :: r2 =>
          match parseValue fuel r2 with
          | none => none
          | some (v, r3) =>
            match skipWs r3 with
            | ',' :: r4 => parseFields fuel r4 (acc ++ [(String.mk k, v)])
            | '}' :: r4 => some (.obj (acc ++ [(String.mk k, v)]), r4)
            | _ => none
        | _ => none
    | _ => none

/-- After `[`: either an empty array or an element list. -/
def parseArrBody : Nat → List Char → Option (Json × List Char)
  | 0, _ => none
  | fuel + 1, cs =>
    match skipWs cs with
    | ']' :: rest => some (.arr [], rest)
    | _ => parseElems fuel cs []

/-- Comma-separated elements up to `]`. -/
def parseElems : Nat → List Char → List Json → Option (Json × List Char)
  | 0, _, _ => none
  | fuel + 1, cs, acc =>
    match parseValue fuel cs with
    | none => none
    | some (v, r) =>
      match skipWs r with
      | ',' :: r2 => parseElems fuel r2 (acc ++ [v])
      | ']' :: r2 => some (.arr (acc ++ [v]), r2)
      | _ => none

end

/-- Model of `JSON.parse` on a character list: one complete value, with only
whitespace allowed after it; `none` models a thrown `SyntaxError`. -/
def jsonParseChars (cs : List Char) : Option Json :=
  match parseValue (2 * cs.length + 4) cs with
  | some (v, rest) => if skipWs rest = [] then some v else none
  | none => none

/-- Model of `JSON.parse` on a string. -/
def jsonParse (s : String) : Option Json := jsonParseChars s.data

/-- JavaScript property access `v[k]` on a parsed JSON value: `none` models
`undefined` (missing field, or access on a primitive/array receiver).  A
later duplicate key wins, as in `JSON.parse`. -/
def jsGet (v : Json) (k : String) : Option Json :=
  match v with
  | .obj fs => fs.foldl (fun acc p => if p.1 = k then some p.2 else acc) none
  | _ => none

/-- JavaScript index access `v[i]`: array element, or one-character string
for string receivers; `none` models `undefined`. -/
def jsIndex (v : Json) (i : Nat) : Option Json :=
  match v with
  | .arr xs => xs.get? i
  | .str s => (s.data.get? i).map fun c => .str (String.mk [c])
  | _ => none

/-- Optional chaining `o?.…`: short-circuits to `undefined` when the
receiver is `null` or `undefined`. -/
def optChain (o : Option Json) (f : Json → Option Json) : Option Json :=
  match o with
  | none => none
  | some .null => none
  | some v => f v

/-- JavaScript truthiness of a parsed JSON value. -/
def jsTruthy : Json → Bool
  | .null => false
  | .bool b => b
  | .num m _ => m ≠ 0
  | .str s => s ≠ ""
  | .arr _ => true
  | .obj _ => true

/-! ## Stream increments and the per-provider line parsers -/

/-- Result of `_parseStreamLine`: a JavaScript object with optional fields.
`none` models an absent/`undefined` field; `content`/`thinking` keep the raw
JavaScript value (the reducer only acts on string-typed ones). -/
structure StreamIncrement where
  isDone : Bool := false
  reason : Option String := none
  content : Option Json := none
  thinking : Option Json := none

/-- Model of `SelfHostedProvider._parseStreamLine` on the characters of one line:
parse the whole line as JSON; `done === true` signals end-of-stream;
otherwise extract `message.content` / `message.thinking`.  A parse failure
— or the `TypeError` thrown by `obj.done` when the line is the JSON `null`
— is caught and yields the empty increment `{}`. -/
def selfHostedParseCore (cs : List Char) : StreamIncrement :=
  match jsonParseChars cs with
  | none => {}
  | some .null => {}
  | some v =>
    match jsGet v "done" with
    | some (.bool true) => { isDone := true, reason := some "self-hosted DONE" }
    | _ =>
      let msg := match jsGet v "message" with
        | none => Json.obj []
        | some .null => Json.obj []
        | some m => m
      { content := jsGet msg "content", thinking := jsGet msg "thinking" }

/-- The literal sentinel line of the cloud stream. -/
def sentinelLine : List Char := "data: [DONE]".data

/-- The fixed textual `data: ` marker of cloud stream lines. -/
def hdrChars : List Char := "data: ".data

/-- The value `obj.choices?.[0]?.delta ?? {}` for the cloud line parser. -/
def openAIDeltaOf (v : Json) : Json :=
  match optChain (optChain (optChain (some v)
      (fun x => jsGet x "choices")) (fun x => jsIndex x 0)) (fun x => jsGet x "delta") with
  | none => Json.obj []
  | some .null => Json.obj []
  | some m => m

/-- Model of `OpenAIProvider._parseStreamLine` on the characters of one line:
sentinel check, `data: ` marker check, then JSON-parse the remainder and
extract `choices[0].delta.content`.  A parse failure — or the `TypeError`
thrown by `obj.choices` when the remainder is the JSON `null` — is caught
and yields `{}`. -/
def openAIParseCore (cs : List Char) : StreamIncrement :=
  if cs = sentinelLine then { isDone := true, reason := some "DONE sentinel" }
  else if isHeadOf hdrChars cs then
    match jsonParseChars (cs.drop 6) with
    | none => {}
    | some .null => {}
    | some v => { content := jsGet (openAIDeltaOf v) "content" }
  else {}

/-- String-level wrapper for the self-hosted line parser. -/
def selfHostedParseStreamLine (line : String) : StreamIncrement :=
  selfHostedParseCore line.data

/-- String-level wrapper for the cloud line parser. -/
def openAIParseStreamLine (line : String) : StreamIncrement :=
  openAIParseCore line.data

/-! ## Incremental UTF-8 decoder (`TextDecoder` with `stream: true`)

The WHATWG UTF-8 decoder as a per-byte step function.  The module never
issues a final non-streaming `decode()` call, so there is no end-of-stream
flush here, matching the source.  (The decoder's leading-BOM strip is
omitted; a BOM would in any case be removed by the `trim()` applied to every
line, so no observable behaviour of the reducer depends on it.) -/

/-- Decoder state: accumulated code point, number of continuation bytes
still needed, and the accepted range for the next byte. -/
structure DecState where
  cp : Nat := 0
  needed : Nat := 0
  lo : Nat := 0x80
  hi : Nat := 0xBF
deriving DecidableEq

/-- U+FFFD replacement character. -/
def replChar : Char := Char.ofNat 0xFFFD

/-- Handle one byte in the initial (no pending sequence) state. -/
def decStepFresh (b : Nat) : DecState × List Char :=
  if b ≤ 0x7F then ({}, [Char.ofNat b])
  else if 0xC2 ≤ b && b ≤ 0xDF then ({ cp := b &&& 0x1F, needed := 1 }, [])
  else if 0xE0 ≤ b && b ≤ 0xEF then
    ({ cp := b &&& 0x0F, needed := 2,
       lo := if b = 0xE0 then 0xA0 else 0x80,
       hi := if b = 0xED then 0x9F else 0xBF }, [])
  else if 0xF0 ≤ b && b ≤ 0xF4 then
    ({ cp := b &&& 0x07, needed := 3,
       lo := if b = 0xF0 then 0x90 else 0x80,
       hi := if b = 0xF4 then 0x8F else 0xBF }, [])
  else ({}, [replChar])

/-- Handle one byte: continuation handling with replacement-and-reprocess on
an out-of-range byte, per the WHATWG algorithm. -/
def decStep (s : DecState) (b : Nat) : DecState × List Char :=
  if s.needed = 0 then decStepFresh b
  else if s.lo ≤ b && b ≤ s.hi then
    let cp2 := s.cp * 64 + (b &&& 0x3F)
    if s.needed = 1 then ({}, [Char.ofNat cp2])
    else ({ cp := cp2, needed := s.needed - 1 }, [])
  else
    let p := decStepFresh b
    (p.1, replChar :: p.2)

/-- Model of `decoder.decode(chunk, { stream: true })`: run the per-byte step over a
chunk, threading the decoder state. -/
def decodeChunk : DecState → List Nat → DecState × List Char
  | s, [] => (s, [])
  | s, b :: rest =>
    let p := decStep s b
    let q := decodeChunk p.1 rest
    (q.1, p.2 ++ q.2)

/-- UTF-8 encoding of one character (used to state chunk-boundary
invariance over the byte encoding of a logical text). -/
def encodeChar (c : Char) : List Nat :=
  let n := c.toNat
  if n < 0x80 then [n]
  else if n < 0x800 then [0xC0 ||| (n >>> 6), 0x80 ||| (n &&& 0x3F)]
  else if n < 0x10000 then
    [0xE0 ||| (n >>> 12), 0x80 ||| ((n >>> 6) &&& 0x3F), 0x80 ||| (n &&& 0x3F)]
  else
    [0xF0 ||| (n >>> 18), 0x80 ||| ((n >>> 12) &&& 0x3F),
     0x80 ||| ((n >>> 6) &&& 0x3F), 0x80 ||| (n &&& 0x3F)]

/-- UTF-8 encoding of a character list. -/
def utf8Encode (text : List Char) : List Nat := (text.map encodeChar).flatten

/-! ## The NDJSON stream reducer (`AIProvider._streamNDJSON`)

The reducer is modelled as a pure function from the byte-chunk list of the
response body to the trace of callback invocations.  The `errored` flag
models the `for await` loop raising after the listed chunks (an error during
reduction); the `catch` block then invokes `onDone` without the leftover
flush, exactly as in the source. -/

/-- One callback invocation. -/
inductive StreamEv where
  | content (s : String)
  | thinking (s : String)
  | done
deriving DecidableEq

/-- Model of JavaScript `split` at newlines on a character list: the list of
segments (one more than the number of newlines, never empty). -/
def splitNl : List Char → List (List Char)
  | [] => [[]]
  | c :: rest =>
    if c = '\n' then [] :: splitNl rest
    else match splitNl rest with
      | [] => [[c]]
      | seg :: segs => (c :: seg) :: segs

/-- Merge a carried partial line into the first segment of a split (used to
state how `split('\n')` composes across an append). -/
def joinFirst (l : List Char) : List (List Char) → List (List Char)
  | [] => [l]
  | s :: ss => (l ++ s) :: ss

/-- All segments but the last (`lines` after `lines.pop()`). -/
def initSegs : List (List Char) → List (List Char)
  | [] => []
  | [_] => []
  | s :: rest => s :: initSegs rest

/-- The last segment (the popped, possibly incomplete, line). -/
def lastSeg : List (List Char) → List Char
  | [] => []
  | [s] => s
  | _ :: rest => lastSeg rest

/-- Callback invocations for one non-done increment: `onContent` when
`typeof result.content === 'string'`, then `onThinking` likewise. -/
def lineEvents (r : StreamIncrement) : List StreamEv :=
  (match r.content with
   | some (.str s) => [.content s]
   | _ => []) ++
  (match r.thinking with
   | some (.str s) => [.thinking s]
   | _ => [])

/-- The inner `for (const raw of lines)` loop: trim, skip empty lines,
parse; a done increment invokes `onDone` and stops (the `Bool` result
records that the reducer returned early). -/
def processLines (p : List Char → StreamIncrement) : List (List Char) → List StreamEv × Bool
  | [] => ([], false)
  | raw :: rest =>
    let line := jsTrim raw
    if line = [] then processLines p rest
    else
      let r := p line
      if r.isDone then ([.done], true)
      else
        let pr := processLines p rest
        (lineEvents r ++ pr.1, pr.2)

/-- The post-loop flush of a trimmed non-empty `leftover` (a done increment
from the leftover is dropped; `onDone` itself follows unconditionally in
`streamGo`). -/
def flushLeftover (p : List Char → StreamIncrement) (l : List Char) : List StreamEv :=
  let t := jsTrim l
  if t = [] then []
  else
    let r := p t
    if r.isDone then [] else lineEvents r

/-- Result of handling one chunk: new decoder state, new leftover, events
emitted, and whether a done increment ended the reduction. -/
structure ChunkOut where
  dec : DecState
  leftover : List Char
  evs : List StreamEv
  hit : Bool

/-- One iteration of the `for await (const chunk of resp.body)` loop. -/
def chunkStep (p : List Char → StreamIncrement) (dec : DecState) (l : List Char)
    (chunk : List Nat) : ChunkOut :=
  let d := decodeChunk dec chunk
  let segs := splitNl (l ++ d.2)
  let pr := processLines p (initSegs segs)
  { dec := d.1, leftover := lastSeg segs, evs := pr.1, hit := pr.2 }

/-- The chunk loop with final flush / error handling. -/
def streamGo (p : List Char → StreamIncrement) (errored : Bool) :
    DecState → List Char → List (List Nat) → List StreamEv
  | _, l, [] => if errored then [.done] else flushLeftover p l ++ [.done]
  | dec, l, chunk :: rest =>
    let st := chunkStep p dec l chunk
    if st.hit then st.evs
    else st.evs ++ streamGo p errored st.dec st.leftover rest

/-- Model of `AIProvider._streamNDJSON`: trace of callback invocations for a body
delivered as `chunks`; `errored = true` models the byte stream raising
after those chunks. -/
def streamNDJSON (p : List Char → StreamIncrement) (chunks : List (List Nat))
    (errored : Bool) : List StreamEv :=
  streamGo p errored {} [] chunks

/-! ## HTTP errors and the self-hosted think-retry logic

`_sendRequestInternal` throws `{ status, body }` on a non-2xx response,
where `body` is the response text parsed as JSON if possible and the raw
text otherwise.  A network-level failure (no response at all) carries no
body.  The transport is abstracted as a function from the `think` flag of
the payload to an `Except` result: within one `generateResponse` /
`streamResponse` call every other payload field is fixed, so the flag is
the only varying input. -/

/-- An error thrown by `_sendRequestInternal` (`.inl`: parsed JSON body,
`.inr`: raw text body), or a bodyless network-level error (`none`). -/
structure ErrObj where
  status : Nat
  body : Option (Json ⊕ String)

mutual

/-- JavaScript string coercion of a parsed JSON value, as applied by
`RegExp.prototype.test` to a non-string argument.  (Number rendering is
schematic — digits, sign, `.`/`e` only — which is indistinguishable under
the fixed all-letter search pattern used below.) -/
def jsToDisplay : Json → String
  | .null => "null"
  | .bool true => "true"
  | .bool false => "false"
  | .num m e => toString m ++ (if e = 0 then "" else "e" ++ toString e)
  | .str s => s
  | .obj _ => "[object Object]"
  | .arr xs => arrDisplay xs

/-- Model of `Array.prototype.toString`: comma-joined element coercions, `null`
elements rendering as the empty string. -/
def arrDisplay : List Json → String
  | [] => ""
  | [.null] => ""
  | [x] => jsToDisplay x
  | .null :: xs => "," ++ arrDisplay xs
  | x :: xs => jsToDisplay x ++ "," ++ arrDisplay xs

end

/-- The value `err.body?.error || ''`: the error message string the retry logic
tests, empty for bodyless errors, raw-text bodies, missing or falsy
`error` fields. -/
def thinkMsgOf (e : ErrObj) : String :=
  match e.body with
  | none => ""
  | some (.inr _) => ""
  | some (.inl j) =>
    match jsGet j "error" with
    | none => ""
    | some v => if jsTruthy v then jsToDisplay v else ""

/-- The test `/does not support thinking/.test(errorMsg)`. -/
def thinkMatch (e : ErrObj) : Bool :=
  containsSub "does not support thinking".data (thinkMsgOf e).data

/-- The path `data?.message?.content` for the self-hosted bulk response. -/
def pathSelf (data : Json) : Option Json :=
  optChain (optChain (some data) (fun x => jsGet x "message")) (fun x => jsGet x "content")

/-- The path `data?.choices?.[0]?.message?.content` for the cloud bulk response. -/
def pathCloud (data : Json) : Option Json :=
  optChain (optChain (optChain (optChain (some data)
    (fun x => jsGet x "choices")) (fun x => jsIndex x 0))
    (fun x => jsGet x "message")) (fun x => jsGet x "content")

/-- The value `v || ''`: the value itself when truthy, the empty string otherwise
(including for `undefined`). -/
def jsOr (o : Option Json) : Json :=
  match o with
  | some v => if jsTruthy v then v else .str ""
  | none => .str ""

/-- Body of `SelfHostedProvider.generateResponse`'s return:
`data?.message?.content || ''`. -/
def selfExtractBulk (data : Json) : Json := jsOr (pathSelf data)

/-- Body of `OpenAIProvider.generateResponse`'s return:
`data?.choices?.[0]?.message?.content || ''`. -/
def openAIExtractBulk (data : Json) : Json := jsOr (pathCloud data)

/-- Model of `OpenAIProvider.generateResponse` over an abstracted transport result:
no retry of any kind; a thrown error propagates unchanged. -/
def openAIGenerateResponse (r : Except ErrObj Json) : Except ErrObj Json :=
  r.map openAIExtractBulk

/-- The shared tail of `SelfHostedProvider.generateResponse`: the
`think:false` request followed by bulk extraction. -/
def selfBulkTail (f : Bool → Except ErrObj Json) : Except ErrObj Json :=
  (f false).map selfExtractBulk

/-- Model of `SelfHostedProvider.generateResponse` over an abstracted transport
`f : think ↦ result`: with `think`, try `think:true` first; on an error
whose body matches the thinking pattern fall through to the `think:false`
tail, otherwise rethrow. -/
def selfGenerateResponse (f : Bool → Except ErrObj Json) (think : Bool) :
    Except ErrObj Json :=
  if think then
    match f true with
    | .ok data => .ok (selfExtractBulk data)
    | .error err => if thinkMatch err then selfBulkTail f else .error err
  else selfBulkTail f

/-- A streaming response body: its byte chunks, and whether the stream
raises after them. -/
def StreamSrc : Type := List (List Nat) × Bool

/-- The shared tail of `SelfHostedProvider.streamResponse`. -/
def selfStreamTail (g : Bool → Except ErrObj StreamSrc) : Except ErrObj (List StreamEv) :=
  (g false).map fun src => streamNDJSON selfHostedParseCore src.1 src.2

/-- Model of `SelfHostedProvider.streamResponse` over an abstracted transport:
identical two-stage structure to `selfGenerateResponse`, driving the
reducer over the obtained body. -/
def selfStreamResponse (g : Bool → Except ErrObj StreamSrc) (think : Bool) :
    Except ErrObj (List StreamEv) :=
  if think then
    match g true with
    | .ok src => .ok (streamNDJSON selfHostedParseCore src.1 src.2)
    | .error err => if thinkMatch err then selfStreamTail g else .error err
  else selfStreamTail g

/-! ## The self-hosted message/image adapter (`_processMessagesForOllama`) -/

/-- One part of a multimodal user message (`{type:'text', text}` or
`{type:'image_url', image_url:{url}}`). -/
inductive CPart where
  | text (t : String)
  | image (url : String)
deriving DecidableEq

/-- Message content: a plain string, or a part list (`Array.isArray`). -/
inductive MContent where
  | plain (s : String)
  | parts (l : List CPart)
deriving DecidableEq

/-- An incoming normalized message. -/
structure ChatMsg where
  role : String
  content : MContent
deriving DecidableEq

/-- An outgoing backend message; `images = none` models the absence of the
`images` key. -/
structure OllamaMsg where
  role : String
  content : MContent
  images : Option (List String)
deriving DecidableEq

/-- The value `dataUrl.substring(dataUrl.indexOf(',') + 1)`: drop everything up to
and including the first comma; the whole string when there is none. -/
def dropThroughComma : List Char → List Char
  | [] => []
  | c :: r => if c = ',' then r else dropThroughComma r

/-- Strip a `data:<mime>;base64,` marker down to the raw base64 payload. -/
def stripDataUrl (u : String) : String :=
  if u.data.contains ',' then String.mk (dropThroughComma u.data) else u

/-- The `for (const part of msg.content)` loop: accumulate
`textContent += part.text + ' '` and push stripped payloads of truthy
image URLs. -/
def processPartsLoop : List CPart → List Char → List String → List Char × List String
  | [], txt, imgs => (txt, imgs)
  | .text t :: rest, txt, imgs => processPartsLoop rest (txt ++ t.data ++ [' ']) imgs
  | .image u :: rest, txt, imgs =>
    processPartsLoop rest txt (imgs ++ if u ≠ "" then [stripDataUrl u] else [])

/-- Adapt one message: a user message with part-list content is flattened
(trimmed text, message-level image list only when non-empty); everything
else passes through unchanged. -/
def processMsgForOllama (m : ChatMsg) : OllamaMsg :=
  match m with
  | ⟨role, .parts l⟩ =>
    if role = "user" then
      let acc := processPartsLoop l [] []
      let c := String.mk (jsTrim acc.1)
      if acc.2 = [] then ⟨"user", .plain c, none⟩
      else ⟨"user", .plain c, some acc.2⟩
    else ⟨role, .parts l, none⟩
  | ⟨role, .plain s⟩ => ⟨role, .plain s, none⟩

/-- Model of `SelfHostedProvider._processMessagesForOllama`. -/
def processMessagesForOllama (msgs : List ChatMsg) : List OllamaMsg :=
  msgs.map processMsgForOllama

/-- Text parts of a part list, in order. -/
def textsOf (l : List CPart) : List String :=
  l.filterMap fun p => match p with | .text t => some t | _ => none

/-- The space-joined concatenation of a list of texts (one separating space
between adjacent texts), as the spec words it. -/
def spaceJoin : List String → List Char
  | [] => []
  | [t] => t.data
  | t :: ts => t.data ++ ' ' :: spaceJoin ts

/-- Modelled from the spec's words (§4.4 / claim C4), for comparison with
`processMessagesForOllama`: the image list collects **each** image part's
stripped payload, with no condition on the URL. -/
def claimedAdaptMsg (m : ChatMsg) : OllamaMsg :=
  match m with
  | ⟨role, .parts l⟩ =>
    if role = "user" then
      let imgs := l.filterMap fun p => match p with
        | .image u => some (stripDataUrl u)
        | _ => none
      let c := String.mk (jsTrim (spaceJoin (textsOf l)))
      if imgs = [] then ⟨"user", .plain c, none⟩
      else ⟨"user", .plain c, some imgs⟩
    else ⟨role, .parts l, none⟩
  | ⟨role, .plain s⟩ => ⟨role, .plain s, none⟩

/-- Modelled from the spec's words, for comparison. -/
def claimedAdapt (msgs : List ChatMsg) : List OllamaMsg :=
  msgs.map claimedAdaptMsg

/-- The amended per-message adapter: as the spec words it, except that only
image parts with a **non-empty** (truthy) URL contribute an image entry. -/
def amendedAdaptMsg (m : ChatMsg) : OllamaMsg :=
  match m with
  | ⟨role, .parts l⟩ =>
    if role = "user" then
      let imgs := l.filterMap fun p => match p with
        | .image u => if u ≠ "" then some (stripDataUrl u) else none
        | _ => none
      let c := String.mk (jsTrim (spaceJoin (textsOf l)))
      if imgs = [] then ⟨"user", .plain c, none⟩
      else ⟨"user", .plain c, some imgs⟩
    else ⟨role, .parts l, none⟩
  | ⟨role, .plain s⟩ => ⟨role, .plain s, none⟩

/-- The amended adapter over a message list. -/
def amendedAdapt (msgs : List ChatMsg) : List OllamaMsg :=
  msgs.map amendedAdaptMsg

/-- Is an event an `onDone` invocation? -/
def isDoneEv : StreamEv → Bool
  | .done => true
  | _ => false

/-- Number of `onDone` invocations in a trace. -/
def countDone (evs : List StreamEv) : Nat := evs.countP isDoneEv

/-! ## Concrete inputs used by witnesses and the counterexample -/

/-- The three NDJSON lines of the end-to-end streaming scenario. -/
def ndjsonBody : String :=
  "\x7b\"message\":\x7b\"content\":\"a\"\x7d\x7d\n\x7b\"message\":\x7b\"content\":\"b\"\x7d\x7d\n\x7b\"done\":true\x7d\n"

/-- Extra bytes after the done line, which the reducer must abandon. -/
def ndjsonExtra : String := "\x7b\"message\":\x7b\"content\":\"c\"\x7d\x7d\n"

/-- A sample text containing a two-byte UTF-8 character. -/
def textW : List Char := "éa\n\x7b\"done\":true\x7d\n".data

/-- A partition of `utf8Encode textW` that splits the two-byte character
and splits lines mid-way. -/
def chunksW : List (List Nat) :=
  [[0xC3], [0xA9, 0x61, 0x0A, 0x7B], (utf8Encode textW).drop 5]

/-- A backend error whose body matches the thinking pattern. -/
def errThink : ErrObj :=
  ⟨400, some (.inl (.obj [("error", .str "model llama does not support thinking")]))⟩

/-- A backend error whose body does not match the thinking pattern. -/
def errOther : ErrObj :=
  ⟨500, some (.inl (.obj [("error", .str "boom")]))⟩

/-- A bulk transport failing the `think:true` attempt with the thinking
error and answering the `think:false` attempt with `{message:{content:"hi"}}`. -/
def fThink : Bool → Except ErrObj Json := fun b =>
  if b then .error errThink
  else .ok (.obj [("message", .obj [("content", .str "hi")])])

/-- A bulk transport failing the `think:true` attempt with an unrelated
error. -/
def fOther : Bool → Except ErrObj Json := fun b =>
  if b then .error errOther
  else .ok (.obj [("message", .obj [("content", .str "hi")])])

/-- A streaming transport failing the `think:true` attempt with the
thinking error and streaming one done line on the `think:false` attempt. -/
def gThink : Bool → Except ErrObj StreamSrc := fun b =>
  if b then .error errThink
  else .ok ([utf8Encode "\x7b\"done\":true\x7d\n".data], false)

/-- A streaming transport failing the `think:true` attempt with an
unrelated error. -/
def gOther : Bool → Except ErrObj StreamSrc := fun b =>
  if b then .error errOther
  else .ok ([utf8Encode "\x7b\"done\":true\x7d\n".data], false)

/-- A user message with a text part and an image part whose data URL is the
empty string. -/
def msgEmptyUrl : ChatMsg := ⟨"user", .parts [.text "hi", .image ""]⟩

/-! ## Helper lemmas: the incremental decoder composes across appends -/

theorem decodeChunk_append (a b : List Nat) (s : DecState) :
    decodeChunk s (a ++ b) =
      ((decodeChunk (decodeChunk s a).1 b).1,
       (decodeChunk s a).2 ++ (decodeChunk (decodeChunk s a).1 b).2) := by
  induction a generalizing s with
  | nil => simp [decodeChunk]
  | cons x xs ih => simp [decodeChunk, ih, List.append_assoc]

/-! ## Helper lemmas: `split('\n')` composes across appends -/

theorem splitNl_ne_nil (cs : List Char) : splitNl cs ≠ [] := by
  cases cs with
  | nil => simp [splitNl]
  | cons c rest =>
    simp only [splitNl]
    split
    · simp
    · split <;> simp

theorem initSegs_cons (x : List Char) (l : List (List Char)) (h : l ≠ []) :
    initSegs (x :: l) = x :: initSegs l := by
  cases l with
  | nil => exact absurd rfl h
  | cons y ys => rfl

theorem lastSeg_cons (x : List Char) (l : List (List Char)) (h : l ≠ []) :
    lastSeg (x :: l) = lastSeg l := by
  cases l with
  | nil => exact absurd rfl h
  | cons y ys => rfl

theorem initSegs_append (A B : List (List Char)) (h : B ≠ []) :
    initSegs (A ++ B) = A ++ initSegs B := by
  induction A with
  | nil => rfl
  | cons x xs ih =>
    have hne : xs ++ B ≠ [] := by
      intro hc
      exact h (List.append_eq_nil.mp hc).2
    simp [initSegs_cons x (xs ++ B) hne, ih]

theorem lastSeg_append (A B : List (List Char)) (h : B ≠ []) :
    lastSeg (A ++ B) = lastSeg B := by
  induction A with
  | nil => rfl
  | cons x xs ih =>
    have hne : xs ++ B ≠ [] := by
      intro hc
      exact h (List.append_eq_nil.mp hc).2
    simp [lastSeg_cons x (xs ++ B) hne, ih]

theorem joinFirst_ne_nil (l : List Char) (segs : List (List Char)) :
    joinFirst l segs ≠ [] := by
  cases segs <;> simp [joinFirst]

theorem splitNl_cons_nl (rest : List Char) : splitNl ('\n' :: rest) = [] :: splitNl rest := by
  simp [splitNl]

theorem splitNl_cons (c : Char) (rest : List Char) (h : c ≠ '\n') :
    splitNl (c :: rest) =
      match splitNl rest with
      | [] => [[c]]
      | s :: ss => (c :: s) :: ss := by
  simp [splitNl, h]

theorem splitNl_append (a b : List Char) :
    splitNl (a ++ b) = initSegs (splitNl a) ++ joinFirst (lastSeg (splitNl a)) (splitNl b) := by
  induction a with
  | nil =>
    simp only [List.nil_append, splitNl, initSegs, lastSeg]
    cases hb : splitNl b with
    | nil => exact absurd hb (splitNl_ne_nil b)
    | cons s ss => simp [joinFirst]
  | cons c a' ih =>
    by_cases hc : c = '\n'
    · subst hc
      have hne := splitNl_ne_nil a'
      rw [List.cons_append, splitNl_cons_nl, splitNl_cons_nl, ih,
        initSegs_cons _ _ hne, lastSeg_cons _ _ hne, List.cons_append]
    · rw [List.cons_append, splitNl_cons c (a' ++ b) hc, splitNl_cons c a' hc, ih]
      cases hs : splitNl a' with
      | nil => exact absurd hs (splitNl_ne_nil a')
      | cons s0 ss =>
        cases ss with
        | nil =>
          cases htb : splitNl b with
          | nil => exact absurd htb (splitNl_ne_nil b)
          | cons t ts => simp [joinFirst, initSegs, lastSeg]
        | cons s1 ss' => simp [joinFirst, initSegs, lastSeg]

theorem splitNl_of_noNl (l : List Char) (h : '\n' ∉ l) : splitNl l = [l] := by
  induction l with
  | nil => rfl
  | cons c rest ih =>
    have hc : c ≠ '\n' := fun hcc => h (hcc ▸ List.mem_cons_self c rest)
    have hrest : '\n' ∉ rest := fun hm => h (List.mem_cons_of_mem c hm)
    rw [splitNl_cons c rest hc, ih hrest]

theorem noNl_lastSeg_splitNl (cs : List Char) : '\n' ∉ lastSeg (splitNl cs) := by
  induction cs with
  | nil => simp [splitNl, lastSeg]
  | cons c rest ih =>
    by_cases hc : c = '\n'
    · subst hc
      rw [splitNl_cons_nl, lastSeg_cons _ _ (splitNl_ne_nil rest)]
      exact ih
    · rw [splitNl_cons c rest hc]
      cases hs : splitNl rest with
      | nil => exact absurd hs (splitNl_ne_nil rest)
      | cons s0 ss =>
        rw [hs] at ih
        cases ss with
        | nil =>
          simp only [lastSeg] at ih ⊢
          intro hm
          rcases List.mem_cons.mp hm with h1 | h2
          · exact hc h1.symm
          · exact ih h2
        | cons s1 ss' =>
          simpa [lastSeg] using ih

/-! ## Helper lemmas: the line loop composes across appends -/

theorem processLines_append (p : List Char → StreamIncrement) (ls1 ls2 : List (List Char)) :
    processLines p (ls1 ++ ls2) =
      (if (processLines p ls1).2 then processLines p ls1
       else ((processLines p ls1).1 ++ (processLines p ls2).1, (processLines p ls2).2)) := by
  induction ls1 with
  | nil => simp [processLines]
  | cons raw rest ih =>
    by_cases ht : jsTrim raw = []
    · simpa [processLines, ht] using ih
    · by_cases hd : (p (jsTrim raw)).isDone
      · simp [processLines, ht, hd]
      · cases h2 : (processLines p rest).2 with
        | true => simp [processLines, ht, hd, ih, h2]
        | false => simp [processLines, ht, hd, ih, h2]

/-! ## Helper lemmas: one chunk step composes across appends -/

theorem segs_append (dec : DecState) (l : List Char) (a b : List Nat) :
    splitNl (l ++ (decodeChunk dec (a ++ b)).2) =
      initSegs (splitNl (l ++ (decodeChunk dec a).2)) ++
        splitNl (lastSeg (splitNl (l ++ (decodeChunk dec a).2)) ++
          (decodeChunk (decodeChunk dec a).1 b).2) := by
  have h2 : splitNl (lastSeg (splitNl (l ++ (decodeChunk dec a).2)) ++
        (decodeChunk (decodeChunk dec a).1 b).2) =
      joinFirst (lastSeg (splitNl (l ++ (decodeChunk dec a).2)))
        (splitNl (decodeChunk (decodeChunk dec a).1 b).2) := by
    rw [splitNl_append, splitNl_of_noNl _ (noNl_lastSeg_splitNl _)]
    rfl
  rw [h2]
  simp only [decodeChunk_append a b dec]
  rw [← List.append_assoc, splitNl_append]

theorem chunkStep_append_dec (p : List Char → StreamIncrement) (dec : DecState)
    (l : List Char) (a b : List Nat) :
    (chunkStep p dec l (a ++ b)).dec =
      (chunkStep p (chunkStep p dec l a).dec (chunkStep p dec l a).leftover b).dec := by
  simp [chunkStep, decodeChunk_append a b dec]

theorem chunkStep_append_leftover (p : List Char → StreamIncrement) (dec : DecState)
    (l : List Char) (a b : List Nat) :
    (chunkStep p dec l (a ++ b)).leftover =
      (chunkStep p (chunkStep p dec l a).dec (chunkStep p dec l a).leftover b).leftover := by
  simp only [chunkStep]
  rw [segs_append, lastSeg_append _ _ (splitNl_ne_nil _)]

theorem chunkStep_append_evs (p : List Char → StreamIncrement) (dec : DecState)
    (l : List Char) (a b : List Nat) :
    (chunkStep p dec l (a ++ b)).evs =
      (if (chunkStep p dec l a).hit then (chunkStep p dec l a).evs
       else (chunkStep p dec l a).evs ++
         (chunkStep p (chunkStep p dec l a).dec (chunkStep p dec l a).leftover b).evs) := by
  simp only [chunkStep]
  rw [segs_append, initSegs_append _ _ (splitNl_ne_nil _), processLines_append]
  by_cases h : (processLines p (initSegs (splitNl (l ++ (decodeChunk dec a).2)))).2 <;>
    simp [h]

theorem chunkStep_append_hit (p : List Char → StreamIncrement) (dec : DecState)
    (l : List Char) (a b : List Nat) :
    (chunkStep p dec l (a ++ b)).hit =
      (if (chunkStep p dec l a).hit then true
       else (chunkStep p (chunkStep p dec l a).dec (chunkStep p dec l a).leftover b).hit) := by
  simp only [chunkStep]
  rw [segs_append, initSegs_append _ _ (splitNl_ne_nil _), processLines_append]
  by_cases h : (processLines p (initSegs (splitNl (l ++ (decodeChunk dec a).2)))).2 <;>
    simp [h]

/-- Two adjacent chunks are reduced exactly as their concatenation. -/
theorem streamGo_merge (p : List Char → StreamIncrement) (e : Bool) (dec : DecState)
    (l : List Char) (a b : List Nat) (rest : List (List Nat)) :
    streamGo p e dec l (a :: b :: rest) = streamGo p e dec l ((a ++ b) :: rest) := by
  simp only [streamGo]
  rw [chunkStep_append_evs, chunkStep_append_hit, chunkStep_append_dec,
    chunkStep_append_leftover]
  by_cases h1 : (chunkStep p dec l a).hit
  · simp [h1]
  · by_cases h2 : (chunkStep p (chunkStep p dec l a).dec (chunkStep p dec l a).leftover b).hit
    · simp [h1, h2]
    · simp [h1, h2]

/-- A chunk list is reduced exactly as the single chunk made of its
concatenation. -/
theorem streamGo_collapse (p : List Char → StreamIncrement) (e : Bool) :
    ∀ (rest : List (List Nat)) (a : List Nat) (dec : DecState) (l : List Char),
      streamGo p e dec l (a :: rest) = streamGo p e dec l [a ++ rest.flatten]
  | [], a, dec, l => by simp
  | b :: rest, a, dec, l => by
    rw [streamGo_merge, streamGo_collapse p e rest (a ++ b) dec l,
      List.flatten_cons, List.append_assoc]

/-! ## Helper lemmas: counting `onDone` invocations -/

theorem countDone_append (a b : List StreamEv) :
    countDone (a ++ b) = countDone a + countDone b := by
  simp [countDone, List.countP_append]

theorem countDone_lineEvents (r : StreamIncrement) : countDone (lineEvents r) = 0 := by
  unfold lineEvents
  split <;> split <;> simp [countDone, List.countP_cons, isDoneEv]

theorem countDone_done_single : countDone [StreamEv.done] = 1 := rfl

theorem countDone_processLines (p : List Char → StreamIncrement) (ls : List (List Char)) :
    countDone (processLines p ls).1 = if (processLines p ls).2 then 1 else 0 := by
  induction ls with
  | nil => simp [processLines, countDone]
  | cons raw rest ih =>
    by_cases ht : jsTrim raw = []
    · simpa [processLines, ht] using ih
    · by_cases hd : (p (jsTrim raw)).isDone
      · simp [processLines, ht, hd, countDone, isDoneEv]
      · simp [processLines, ht, hd, countDone_append, countDone_lineEvents, ih]

theorem countDone_flushLeftover (p : List Char → StreamIncrement) (l : List Char) :
    countDone (flushLeftover p l) = 0 := by
  by_cases ht : jsTrim l = []
  · simp [flushLeftover, ht, countDone]
  · by_cases hd : (p (jsTrim l)).isDone
    · simp [flushLeftover, ht, hd, countDone]
    · simpa [flushLeftover, ht, hd] using countDone_lineEvents (p (jsTrim l))

theorem countDone_streamGo (p : List Char → StreamIncrement) (e : Bool) :
    ∀ (chunks : List (List Nat)) (dec : DecState) (l : List Char),
      countDone (streamGo p e dec l chunks) = 1
  | [], dec, l => by
    cases e <;>
      simp [streamGo, countDone_append, countDone_flushLeftover, countDone_done_single]
  | chunk :: rest, dec, l => by
    have hevs : (chunkStep p dec l chunk).evs =
        (processLines p (initSegs (splitNl (l ++ (decodeChunk dec chunk).2)))).1 := rfl
    have hhit : (chunkStep p dec l chunk).hit =
        (processLines p (initSegs (splitNl (l ++ (decodeChunk dec chunk).2)))).2 := rfl
    have hph := countDone_processLines p (initSegs (splitNl (l ++ (decodeChunk dec chunk).2)))
    simp only [streamGo]
    by_cases h : (chunkStep p dec l chunk).hit
    · rw [if_pos h, hevs, hph, if_pos (hhit ▸ h)]
    · rw [if_neg h, countDone_append, hevs, hph, if_neg (hhit ▸ h),
        countDone_streamGo p e rest]

/-! ## Helper lemmas: a parser that never produces `thinking` -/

theorem openAIParseCore_thinking_none (cs : List Char) :
    (openAIParseCore cs).thinking = none := by
  unfold openAIParseCore
  split
  · rfl
  · split
    · split <;> rfl
    · rfl

theorem lineEvents_no_thinking (r : StreamIncrement) (h : r.thinking = none) (s : String) :
    StreamEv.thinking s ∉ lineEvents r := by
  unfold lineEvents
  rw [h]
  split <;> simp

theorem processLines_no_thinking (p : List Char → StreamIncrement)
    (hp : ∀ cs, (p cs).thinking = none) (ls : List (List Char)) (s : String) :
    StreamEv.thinking s ∉ (processLines p ls).1 := by
  induction ls with
  | nil => simp [processLines]
  | cons raw rest ih =>
    by_cases ht : jsTrim raw = []
    · simpa [processLines, ht] using ih
    · by_cases hd : (p (jsTrim raw)).isDone
      · simp [processLines, ht, hd]
      · simp only [processLines, ht, hd, if_neg, if_false]
        intro hm
        rcases List.mem_append.mp hm with h1 | h2
        · exact lineEvents_no_thinking _ (hp _) s h1
        · exact ih h2

theorem flushLeftover_no_thinking (p : List Char → StreamIncrement)
    (hp : ∀ cs, (p cs).thinking = none) (l : List Char) (s : String) :
    StreamEv.thinking s ∉ flushLeftover p l := by
  by_cases ht : jsTrim l = []
  · simp [flushLeftover, ht]
  · by_cases hd : (p (jsTrim l)).isDone
    · simp [flushLeftover, ht, hd]
    · simpa [flushLeftover, ht, hd] using lineEvents_no_thinking _ (hp (jsTrim l)) s

theorem streamGo_no_thinking (p : List Char → StreamIncrement)
    (hp : ∀ cs, (p cs).thinking = none) (e : Bool) :
    ∀ (chunks : List (List Nat)) (dec : DecState) (l : List Char) (s : String),
      StreamEv.thinking s ∉ streamGo p e dec l chunks
  | [], dec, l, s => by
    cases e with
    | false =>
      simp only [streamGo, Bool.false_eq_true, if_false]
      intro hm
      rcases List.mem_append.mp hm with h1 | h2
      · exact flushLeftover_no_thinking p hp l s h1
      · simp at h2
    | true => simp [streamGo]
  | chunk :: rest, dec, l, s => by
    have hevs : StreamEv.thinking s ∉ (chunkStep p dec l chunk).evs :=
      processLines_no_thinking p hp
        (initSegs (splitNl (l ++ (decodeChunk dec chunk).2))) s
    simp only [streamGo]
    by_cases h : (chunkStep p dec l chunk).hit
    · simpa [h] using hevs
    · simp only [h, if_false, Bool.false_eq_true]
      intro hm
      rcases List.mem_append.mp hm with h1 | h2
      · exact hevs h1
      · exact streamGo_no_thinking p hp e rest _ _ s h2

/-! ## Helper lemmas: the cloud line parser -/

theorem stringDataEq {s t : String} (h : s.data = t.data) : s = t := by
  cases s
  cases t
  exact congrArg String.mk h

theorem isHeadOf_hdr (t : List Char) : isHeadOf hdrChars ("data: ".data ++ t) = true := rfl

/-- A non-sentinel `data: `-marked line is parsed by JSON-parsing the rest. -/
theorem openAIParseCore_data_line (t : List Char) (hne : t ≠ "[DONE]".data) :
    openAIParseCore ("data: ".data ++ t) =
      (match jsonParseChars t with
       | none => {}
       | some .null => {}
       | some v => { content := jsGet (openAIDeltaOf v) "content" }) := by
  have hsent : "data: ".data ++ t ≠ sentinelLine := by
    intro hc
    apply hne
    have h2 : "data: ".data ++ t = "data: ".data ++ "[DONE]".data := by
      rw [hc]
      rfl
    exact List.append_cancel_left h2
  unfold openAIParseCore
  rw [if_neg hsent, if_pos (isHeadOf_hdr t)]
  rfl

/-- A line without the `data: ` marker yields the empty increment. -/
theorem openAIParseCore_not_data (cs : List Char) (h : isHeadOf hdrChars cs = false) :
    openAIParseCore cs = {} := by
  have hsent : cs ≠ sentinelLine := by
    intro hc
    subst hc
    exact absurd h (by decide)
  unfold openAIParseCore
  rw [if_neg hsent, if_neg (by simp [h])]

/-! ## Claim theorems -/

/-- C1: for every line parser, every byte-chunk list and both terminations
of the source stream (ending normally, or raising during reduction), a
single call to the stream reducer `_streamNDJSON` invokes `onDone` exactly
once.  The three paths of the claim are all instances: normal completion
(`errored = false`, no done line), a done-sentinel line (whenever a parsed
line yields `isDone`, the early-return path), and an error thrown during
reduction (`errored = true`, the catch-all path). -/
theorem claim_C1_onDone_exactly_once (p : List Char → StreamIncrement)
    (chunks : List (List Nat)) (errored : Bool) :
    countDone (streamNDJSON p chunks errored) = 1 :=
  countDone_streamGo p errored chunks {} []

/-- C2: chunk-boundary invariance.  For every logical text, every partition
of its UTF-8 byte encoding into chunks at arbitrary byte offsets (including
mid-line and mid-multibyte-character) and every line parser, the stream
reducer produces exactly the same callback trace — in particular the same
content increments in the same order — as when the whole encoding arrives
as one single chunk. -/
theorem claim_C2_chunk_invariance (p : List Char → StreamIncrement) (text : List Char)
    (chunks : List (List Nat)) (h : chunks.flatten = utf8Encode text) :
    streamNDJSON p chunks false = streamNDJSON p [utf8Encode text] false := by
  cases chunks with
  | nil =>
    rw [← h]
    rfl
  | cons a rest =>
    rw [List.flatten_cons] at h
    unfold streamNDJSON
    rw [streamGo_collapse p false rest a {} [], h]

/-- Witness for C2: a text with a two-byte character, partitioned so that
one chunk boundary falls inside the character and another inside a line. -/
theorem claim_C2_witness :
    chunksW.flatten = utf8Encode textW ∧
      streamNDJSON selfHostedParseCore chunksW false =
        streamNDJSON selfHostedParseCore [utf8Encode textW] false :=
  ⟨by decide, claim_C2_chunk_invariance selfHostedParseCore textW chunksW (by decide)⟩

/-- C8: driving the self-hosted stream path over the three NDJSON lines
yields exactly `onContent "a"`, `onContent "b"`, `onDone`, in that order;
and even with further lines after the done line the trace is unchanged (no
callback after the done increment — remaining bytes are abandoned). -/
theorem claim_C8_end_to_end :
    streamNDJSON selfHostedParseCore [utf8Encode ndjsonBody.data] false =
        [.content "a", .content "b", .done] ∧
      streamNDJSON selfHostedParseCore [utf8Encode (ndjsonBody ++ ndjsonExtra).data] false =
        [.content "a", .content "b", .done] := by
  constructor <;> rfl

/-- C10: the cloud parser never returns an increment carrying a `thinking`
field, and consequently no `onThinking` invocation ever occurs in a
cloud-provider stream reduction, for any chunk list and either termination
of the stream. -/
theorem claim_C10_no_cloud_thinking :
    (∀ line : String, (openAIParseStreamLine line).thinking = none) ∧
      ∀ (chunks : List (List Nat)) (errored : Bool) (s : String),
        StreamEv.thinking s ∉ streamNDJSON openAIParseCore chunks errored :=
  ⟨fun line => openAIParseCore_thinking_none line.data,
   fun chunks errored s =>
     streamGo_no_thinking openAIParseCore openAIParseCore_thinking_none errored chunks {} [] s⟩

/-- C5: both stream-line parsers are total (they are plain functions into
`StreamIncrement`, so they terminate without throwing on every input
string), and whenever the JSON they attempt to parse is unparseable they
return the empty increment `{}` (no content, not done): the self-hosted
parser attempts the whole line, the cloud parser attempts the remainder of
a non-sentinel `data: `-marked line, and a line without the marker is never
JSON-parsed and also yields `{}`. -/
theorem claim_C5_parsers_never_throw :
    (∀ line : String, jsonParse line = none → selfHostedParseStreamLine line = {}) ∧
      (∀ rest : String, rest ≠ "[DONE]" → jsonParse rest = none →
        openAIParseStreamLine ("data: " ++ rest) = {}) ∧
      (∀ line : String, isHeadOf hdrChars line.data = false →
        openAIParseStreamLine line = {}) := by
  refine ⟨fun line h => ?_, fun rest hne h => ?_, fun line h => ?_⟩
  · unfold selfHostedParseStreamLine selfHostedParseCore
    rw [show jsonParseChars line.data = none from h]
  · have hne' : rest.data ≠ "[DONE]".data := fun hc => hne (stringDataEq hc)
    unfold openAIParseStreamLine
    rw [String.data_append, openAIParseCore_data_line rest.data hne',
      show jsonParseChars rest.data = none from h]
  · exact openAIParseCore_not_data line.data h

/-- Witness for C5: a malformed whole line for the self-hosted parser, a
malformed JSON remainder on a marked cloud line, and an unmarked cloud
line. -/
theorem claim_C5_witness :
    selfHostedParseStreamLine "nonsense" = {} ∧
      openAIParseStreamLine ("data: " ++ "\x7boops") = {} ∧
      openAIParseStreamLine "hello" = {} :=
  ⟨claim_C5_parsers_never_throw.1 "nonsense" rfl,
   claim_C5_parsers_never_throw.2.1 "\x7boops" (by decide) rfl,
   claim_C5_parsers_never_throw.2.2 "hello" rfl⟩

/-- C6: the cloud parser maps the exact sentinel line to a done increment,
and the self-hosted parser maps a line whose JSON has top-level
`done: true` to a done increment. -/
theorem claim_C6_done_increments :
    (openAIParseStreamLine "data: [DONE]").isDone = true ∧
      (selfHostedParseStreamLine "\x7b\"done\":true\x7d").isDone = true :=
  ⟨rfl, rfl⟩

/-- C7: a cloud stream line without the `data: ` marker yields `{}`
(no content, not done); and a marked line whose JSON parses but lacks the
`choices[0].delta.content` path yields an increment with no content and
`isDone` false, i.e. exactly `{}`. -/
theorem claim_C7_cloud_empty_increments :
    (∀ line : String, isHeadOf hdrChars line.data = false →
        openAIParseStreamLine line = {}) ∧
      ∀ (rest : String) (v : Json), jsonParse rest = some v →
        jsGet (openAIDeltaOf v) "content" = none →
        openAIParseStreamLine ("data: " ++ rest) = {} := by
  refine ⟨fun line h => openAIParseCore_not_data line.data h, fun rest v hj hpath => ?_⟩
  have hne' : rest.data ≠ "[DONE]".data := by
    intro hc
    have : jsonParse rest = none := by
      have : rest = "[DONE]" := stringDataEq hc
      rw [this]
      rfl
    rw [this] at hj
    cases hj
  unfold openAIParseStreamLine
  rw [String.data_append, openAIParseCore_data_line rest.data hne',
    show jsonParseChars rest.data = some v from hj]
  cases v <;> simp_all

/-- Witness for C7: an unmarked line, and a marked line whose JSON is an
object without `choices`. -/
theorem claim_C7_witness :
    openAIParseStreamLine "event: ping" = {} ∧
      openAIParseStreamLine ("data: " ++ "\x7b\"id\":\"x\"\x7d") = {} :=
  ⟨claim_C7_cloud_empty_increments.1 "event: ping" rfl,
   claim_C7_cloud_empty_increments.2 "\x7b\"id\":\"x\"\x7d"
     (.obj [("id", .str "x")]) rfl rfl⟩

/-- C9: for every successful backend response body that lacks the expected
content path (`choices[0].message.content` for the cloud provider,
`message.content` for the self-hosted provider, the lookup yielding
`undefined`), `generateResponse` returns the empty string — not an
exception and not a null/undefined value.  For the self-hosted provider
this holds for either value of `think`, the first attempt succeeding. -/
theorem claim_C9_missing_path_empty_string :
    (∀ data : Json, pathCloud data = none →
        openAIGenerateResponse (.ok data) = .ok (.str "")) ∧
      ∀ (data : Json) (think : Bool), pathSelf data = none →
        selfGenerateResponse (fun _ => .ok data) think = .ok (.str "") := by
  constructor
  · intro data h
    simp [openAIGenerateResponse, openAIExtractBulk, jsOr, h, Except.map]
  · intro data think h
    cases think <;>
      simp [selfGenerateResponse, selfBulkTail, selfExtractBulk, jsOr, h, Except.map]

/-- Witness for C9: a cloud body without `choices` and a self-hosted body
without `message`. -/
theorem claim_C9_witness :
    openAIGenerateResponse (.ok (.obj [("id", .str "x")])) = .ok (.str "") ∧
      selfGenerateResponse (fun _ => .ok (.obj [])) true = .ok (.str "") :=
  ⟨claim_C9_missing_path_empty_string.1 (.obj [("id", .str "x")]) rfl,
   claim_C9_missing_path_empty_string.2 (.obj []) true rfl⟩

/-- C3: the self-hosted think-retry state machine, identically for the bulk
and the streaming operation.  With `think:true`, if the first attempt fails
with an error body matching `/does not support thinking/` the provider
makes exactly one further attempt with `think:false` and returns that
second attempt's result (success or failure) as terminal — the shared tail
`selfBulkTail` / `selfStreamTail`, which is exactly `(f false)` followed by
the normal result handling; if the first attempt's error does not match,
it is propagated unchanged with no retry. -/
theorem claim_C3_think_retry (f : Bool → Except ErrObj Json)
    (g : Bool → Except ErrObj StreamSrc) (e1 e2 : ErrObj) :
    (f true = .error e1 → thinkMatch e1 = true →
        selfGenerateResponse f true = selfBulkTail f) ∧
      (f true = .error e1 → thinkMatch e1 = false →
        selfGenerateResponse f true = .error e1) ∧
      (g true = .error e2 → thinkMatch e2 = true →
        selfStreamResponse g true = selfStreamTail g) ∧
      (g true = .error e2 → thinkMatch e2 = false →
        selfStreamResponse g true = .error e2) := by
  refine ⟨fun hf hm => ?_, fun hf hm => ?_, fun hg hm => ?_, fun hg hm => ?_⟩
  · simp [selfGenerateResponse, hf, hm]
  · simp [selfGenerateResponse, hf, hm]
  · simp [selfStreamResponse, hg, hm]
  · simp [selfStreamResponse, hg, hm]

/-- Witness for C3: concrete transports failing the `think:true` attempt
with a matching and with a non-matching error body, for bulk and for
streaming. -/
theorem claim_C3_witness :
    selfGenerateResponse fThink true = .ok (.str "hi") ∧
      selfGenerateResponse fOther true = .error errOther ∧
      selfStreamResponse gThink true = .ok [.done] ∧
      selfStreamResponse gOther true = .error errOther :=
  ⟨((claim_C3_think_retry fThink gThink errThink errThink).1 rfl (by decide)).trans rfl,
   (claim_C3_think_retry fOther gOther errOther errOther).2.1 rfl (by decide),
   (((claim_C3_think_retry fThink gThink errThink errThink).2.2.1 rfl (by decide)).trans rfl),
   (claim_C3_think_retry fOther gOther errOther errOther).2.2.2 rfl (by decide)⟩

/-! ## Helper lemmas: the message/image adapter -/

theorem processPartsLoop_spec (l : List CPart) (txt : List Char) (imgs : List String) :
    processPartsLoop l txt imgs =
      (txt ++ ((textsOf l).map (fun t => t.data ++ [' '])).flatten,
       imgs ++ l.filterMap (fun p => match p with
         | .image u => if u ≠ "" then some (stripDataUrl u) else none
         | _ => none)) := by
  induction l generalizing txt imgs with
  | nil => simp [processPartsLoop, textsOf]
  | cons p rest ih =>
    cases p with
    | text t => simp [processPartsLoop, textsOf, ih, List.append_assoc]
    | image u =>
      by_cases hu : u = "" <;> simp [processPartsLoop, textsOf, ih, hu]

theorem jsTrim_append_space (xs : List Char) : jsTrim (xs ++ [' ']) = jsTrim xs := by
  unfold jsTrim
  rw [List.dropWhile_append]
  by_cases h : (xs.dropWhile isJsWsT).isEmpty
  · have h0 : xs.dropWhile isJsWsT = [] := by simpa using h
    rw [if_pos h, h0]
    rfl
  · rw [if_neg (by simp [h]), List.reverse_append]
    simp [List.dropWhile_cons, isJsWsT]

theorem jsTrim_joinSp (ts : List String) :
    jsTrim ((ts.map (fun t => t.data ++ [' '])).flatten) = jsTrim (spaceJoin ts) := by
  have key : ∀ us : List String, us ≠ [] →
      ((us.map (fun t => t.data ++ [' '])).flatten) = spaceJoin us ++ [' '] := by
    intro us
    induction us with
    | nil => intro h; exact absurd rfl h
    | cons t ts ih =>
      intro _
      cases ts with
      | nil => simp [spaceJoin]
      | cons t2 ts2 =>
        rw [List.map_cons, List.flatten_cons, ih (by simp)]
        show t.data ++ [' '] ++ (spaceJoin (t2 :: ts2) ++ [' ']) =
          (t.data ++ ' ' :: spaceJoin (t2 :: ts2)) ++ [' ']
        simp [List.append_assoc]
  cases ts with
  | nil => rfl
  | cons t ts' => rw [key (t :: ts') (by simp), jsTrim_append_space]

theorem processMsgForOllama_eq_amended (m : ChatMsg) :
    processMsgForOllama m = amendedAdaptMsg m := by
  rcases m with ⟨role, content⟩
  cases content with
  | plain s => rfl
  | parts l =>
    unfold processMsgForOllama amendedAdaptMsg
    by_cases hr : role = "user"
    · simp only [hr, if_pos rfl]
      rw [processPartsLoop_spec l [] []]
      simp only [List.nil_append]
      rw [jsTrim_joinSp (textsOf l)]
    · simp [hr]

/-! ## Claim C4 -/

/-- C4 counterexample: the claim, read as the spec words it (the image list
contains each image part's stripped payload), fails on the code at a user
message carrying an image part whose data URL is the empty string: the
source's truthiness guard `part.image_url.url` skips that part entirely, so
the emitted message is a plain `{role, content}` object, while the claim
demands an image list containing the stripped empty payload. -/
theorem claim_C4_counterexample :
    processMessagesForOllama [msgEmptyUrl] ≠ claimedAdapt [msgEmptyUrl] := by
  decide

/-- C4 amended: for every message list, a user message whose content is a
part list becomes a backend message whose content is the space-joined
trimmed concatenation of its text parts and whose message-level image list
contains, for each image part with a **non-empty** data URL, its payload
with any `data:<mime>;base64,` marker stripped (empty-URL image parts are
skipped); if that image list is empty a plain `{role, content}` message
without an image key is emitted; and every non-user or plain-string-content
message passes through unchanged. -/
theorem claim_C4_adapter_amended (msgs : List ChatMsg) :
    processMessagesForOllama msgs = amendedAdapt msgs := by
  unfold processMessagesForOllama amendedAdapt
  rw [funext processMsgForOllama_eq_amended]

end AIModule
